import Mathlib

/-!
Verification of the TIA project-text translator (Go repository).

The engine of the repository is `iterateAndTranslate` in `main.go` (the
feature-complete variant with quick mode and underscore/number reuse),
together with its helpers `hasUnderscoreNumberPattern`,
`extractBaseAndSuffix`, `isPlaceholder` and the pattern-cache variant
embedded in `README.md` (`normalizeText` and its cache loop).

Strings are modelled as `List Char`.  The Go standard-library functions
used by the engine (`strings.TrimSpace`, `strings.Split`, `strings.SplitN`,
`strings.Join`, `strings.Trim`, `strings.ToLower`, `strings.EqualFold`,
`strings.Contains`, `strings.Count`, `strings.Replace`, `strconv.Atoi`
and the regexp `(?i)^alarm\s+\d+:\s*$`) are given executable models below;
case folding is modelled at ASCII granularity, which is exact on every
character the engine compares against.  The remote translation service is
an oracle `Str → Option Str` (`none` = error), and every argument handed
to it is recorded so that claims about the number of calls are statable.
-/

abbrev Str := List Char

/-- Whitespace as tested by Go `unicode.IsSpace` on ASCII input
(space, tab, newline, vertical tab, form feed, carriage return). -/
def isGoSpace (c : Char) : Bool :=
  c == ' ' || c == '\t' || c == '\n' || c == Char.ofNat 11 ||
  c == Char.ofNat 12 || c == '\r'

/-- Whitespace of the RE2 class `\s`, namely `[\t\n\f\r ]`. -/
def isReSpace (c : Char) : Bool :=
  c == ' ' || c == '\t' || c == '\n' || c == Char.ofNat 12 || c == '\r'

/-- ASCII decimal digit, as matched by `\d` and consumed by `strconv.Atoi`. -/
def isDigitChar (c : Char) : Bool :=
  48 ≤ c.toNat && c.toNat ≤ 57

/-- Model of Go `strings.TrimSpace`. -/
def trimSpace (s : Str) : Str :=
  ((s.dropWhile isGoSpace).reverse.dropWhile isGoSpace).reverse

/-- Model of Go `strings.Trim(s, "\"")`: strip every leading and trailing
double-quote character. -/
def trimQuote (s : Str) : Str :=
  ((s.dropWhile (· == '"')).reverse.dropWhile (· == '"')).reverse

/-- ASCII lower-casing of one character. -/
def toLowerAscii (c : Char) : Char :=
  if 'A' ≤ c && c ≤ 'Z' then Char.ofNat (c.toNat + 32) else c

/-- Model of Go `strings.ToLower` (ASCII granularity). -/
def lowerStr (s : Str) : Str := s.map toLowerAscii

/-- Model of Go `strings.EqualFold` (ASCII granularity, exact for the
literal `"Text"` the engine compares against). -/
def eqFold (a b : Str) : Bool := lowerStr a == lowerStr b

/-- Numeric value of a digit string. -/
def digitsVal (s : Str) : Nat :=
  s.foldl (fun a c => 10 * a + (c.toNat - 48)) 0

/-- Success predicate of Go `strconv.Atoi` on a 64-bit platform: an
optional sign, a non-empty run of decimal digits, and the value within
the signed 64-bit range. -/
def atoiOk (s : Str) : Bool :=
  match s with
  | [] => false
  | c :: rest =>
    if c == '+' then
      !rest.isEmpty && rest.all isDigitChar && decide (digitsVal rest ≤ 2 ^ 63 - 1)
    else if c == '-' then
      !rest.isEmpty && rest.all isDigitChar && decide (digitsVal rest ≤ 2 ^ 63)
    else (c :: rest).all isDigitChar && decide (digitsVal (c :: rest) ≤ 2 ^ 63 - 1)

/-- Test that the second argument is a leading segment of the first
(Go `strings.HasPrefix`). -/
def hasPre : Str → Str → Bool
  | _, [] => true
  | [], _ :: _ => false
  | c :: cs, p :: ps => c == p && hasPre cs ps

/-- Test that the second argument is a trailing segment of the first
(Go `strings.HasSuffix`). -/
def hasSuf (s p : Str) : Bool := hasPre s.reverse p.reverse

/-- Case-insensitive literal matcher: strip the literal `lit` from the
front of `s`, returning the remainder on success. -/
def stripCaseLit : Str → Str → Option Str
  | [], s => some s
  | _ :: _, [] => none
  | l :: ls, c :: cs => if toLowerAscii c == l then stripCaseLit ls cs else none

/-- Model of `meaninglessAlarmRegex.MatchString`, the anchored RE2 pattern
`(?i)^alarm\s+\d+:\s*$` from `main.go` (greedy matching is exact here
because the space, digit and colon character classes are disjoint). -/
def alarmMatch (s : Str) : Bool :=
  match stripCaseLit ['a', 'l', 'a', 'r', 'm'] s with
  | none => false
  | some r =>
    match r with
    | [] => false
    | c :: _ =>
      if isReSpace c then
        match r.dropWhile isReSpace with
        | [] => false
        | d :: _ =>
          if isDigitChar d then
            match (r.dropWhile isReSpace).dropWhile isDigitChar with
            | ':' :: r4 => r4.all isReSpace
            | _ => false
          else false
      else false

/-- Model of `isPlaceholder` from `main.go`: wrapped in `##`, wrapped in
`#` with length above one, wrapped in `@`, or a meaningless alarm line. -/
def isPlaceholder (text : Str) : Bool :=
  if hasPre text ['#', '#'] && hasSuf text ['#', '#'] then true
  else if hasPre text ['#'] && hasSuf text ['#'] && decide (1 < text.length) then true
  else if hasPre text ['@'] && hasSuf text ['@'] then true
  else alarmMatch text

/-- Model of Go `strings.SplitN(s, sep, 2)`: one piece when the separator
is absent, otherwise the part before the first separator and the rest. -/
def splitN2 (sep : Char) : Str → List Str
  | [] => [[]]
  | c :: cs =>
    if c == sep then [[], cs]
    else
      match splitN2 sep cs with
      | [] => [[c]]
      | p :: rest => (c :: p) :: rest

/-- Model of Go `strings.Split(s, sep)` for a one-character separator. -/
def splitAll (sep : Char) : Str → List Str
  | [] => [[]]
  | c :: cs =>
    if c == sep then [] :: splitAll sep cs
    else
      match splitAll sep cs with
      | [] => [[c]]
      | p :: rest => (c :: p) :: rest

/-- Model of Go `strings.Join(parts, sep)` for a one-character separator. -/
def joinSep (sep : Char) : List Str → Str
  | [] => []
  | [p] => p
  | p :: ps => p ++ sep :: joinSep sep ps

/-- Model of Go `strings.Contains(s, string(c))`. -/
def containsChar (s : Str) (c : Char) : Bool := s.any (· == c)

/-- Model of `hasUnderscoreNumberPattern` from `main.go`: splitting on
`_` yields at least two parts and the last part parses as an integer. -/
def hasUnderscoreNumberPattern (text : Str) : Bool :=
  let parts := splitAll '_' text
  if parts.length < 2 then false
  else atoiOk (parts.getLastD [])

/-- Model of `extractBaseAndSuffix` from `main.go`. -/
def extractBaseAndSuffix (text : Str) : Str × Str :=
  let parts := splitAll '_' text
  if parts.length < 2 then (text, [])
  else (joinSep '_' parts.dropLast, parts.getLastD [])

/-- Number of bytes of the UTF-8 encoding of one character, so that Go's
`len(text)` — a byte count — is modelled exactly. -/
def utf8Len (c : Char) : Nat :=
  if c.toNat < 128 then 1
  else if c.toNat < 2048 then 2
  else if c.toNat < 65536 then 3
  else 4

/-- Model of Go `len(text)` on a string: the UTF-8 byte count. -/
def byteLen (s : Str) : Nat := (s.map utf8Len).sum

/-- Row classification of the spec's data model.  `header` is assigned by
the row driver to row index 0; the remaining constructors are decided by
`classify` below in the exact order of the checks in `iterateAndTranslate`. -/
inductive Classification where
  | header
  | tooShort
  | numeric
  | placeholder
  | noOpDefault
  | translatable
deriving DecidableEq, Repr

/-- The classification cascade of `iterateAndTranslate` (`main.go`,
feature-complete variant) applied to the trimmed cell text, in source
order: the `"Text"` no-op check, the placeholder check, the short/`!`
check, then the numeral check. -/
def classify (text : Str) : Classification :=
  if eqFold text ("Text".toList) then Classification.noOpDefault
  else if isPlaceholder text then Classification.placeholder
  else if decide (byteLen text < 3) || (decide (0 < text.length) && (text.headD ' ' == '!')) then
    Classification.tooShort
  else if atoiOk text then Classification.numeric
  else Classification.translatable

/-- The translation port: `none` models an error return (timeout,
transport failure), `some` a successful translation. -/
abbrev Oracle := Str → Option Str

/-- Outcome of processing one non-header row in `iterateAndTranslate`:

* `skipped`      — `continue` with no write (missing cell / `"Text"` no-op);
* `quickSkipped` — quick-mode skip (counted separately);
* `copied v`     — verbatim copy of the cell text (placeholder/short/numeral);
* `saved v calls` — control reached the `saveAndContinue` label: `v` is
  written and the rolling history is updated; `calls` lists the arguments
  of the translation-port calls made for the row;
* `failed calls` — the full-text translation errored: nothing is written,
  history is unchanged. -/
inductive RowResult where
  | skipped
  | quickSkipped
  | copied (v : Str)
  | saved (v : Str) (calls : List Str)
  | failed (calls : List Str)
deriving DecidableEq, Repr

/-- The `#`-delimiter reuse arm of `iterateAndTranslate`, entered once the
current and previous texts share the pre-`#` part and the previous
translation splits in two: a numeric (trimmed) suffix is appended to the
previously translated part verbatim with no call; otherwise only the
suffix is translated, and on error the original text is written. -/
def hashReuse (oracle : Oracle) (prevTrans text : Str) : RowResult :=
  let sfx := trimSpace ((splitN2 '#' text).getD 1 [])
  let tPre := (splitN2 '#' prevTrans).headD []
  if atoiOk sfx then RowResult.saved (tPre ++ '#' :: sfx) []
  else
    match oracle sfx with
    | none => RowResult.saved text [sfx]
    | some tr => RowResult.saved (tPre ++ '#' :: tr) [sfx]

/-- The underscore/number reuse arm of `iterateAndTranslate`, entered once
current and previous texts both match `base_number` with equal bases. -/
def underscoreReuse (oracle : Oracle) (prevTrans text : Str) : RowResult :=
  let cs := (extractBaseAndSuffix text).2
  let tb := (extractBaseAndSuffix prevTrans).1
  if atoiOk cs then RowResult.saved (tb ++ '_' :: cs) []
  else
    match oracle cs with
    | none => RowResult.saved text [cs]
    | some tr => RowResult.saved (tb ++ '_' :: tr) [cs]

/-- The quick-mode skip test of `iterateAndTranslate`: the mode is
`"quick"`, the row has a target cell, and the trimmed, quote-stripped,
lowercased target text is non-empty and differs from `"text"`. -/
def quickGate (mode : Str) (targetCell : Option Str) : Bool :=
  mode == "quick".toList &&
    (match targetCell with
     | some tc =>
       let tt := lowerStr (trimQuote (trimSpace tc))
       !tt.isEmpty && !(tt == "text".toList)
     | none => false)

/-- The per-row decision pipeline of `iterateAndTranslate` (feature-complete
variant of `main.go`) on the trimmed cell text, with `targetCell` the raw
target cell when the row is long enough to have one.  Mirrors the source
order: classification cascade, quick-mode gate, `#` reuse, underscore
reuse, full translation. -/
def rowDecide (oracle : Oracle) (mode prevText prevTrans text : Str)
    (targetCell : Option Str) : RowResult :=
  match classify text with
  | Classification.noOpDefault => RowResult.skipped
  | Classification.header => RowResult.skipped
  | Classification.placeholder => RowResult.copied text
  | Classification.tooShort => RowResult.copied text
  | Classification.numeric => RowResult.copied text
  | Classification.translatable =>
    if quickGate mode targetCell then
      RowResult.quickSkipped
    else if containsChar text '#' && containsChar prevText '#' &&
        decide ((splitN2 '#' text).length = 2) &&
        decide ((splitN2 '#' prevText).length = 2) &&
        ((splitN2 '#' text).headD [] == (splitN2 '#' prevText).headD []) &&
        decide ((splitN2 '#' prevTrans).length = 2) then
      hashReuse oracle prevTrans text
    else if hasUnderscoreNumberPattern text && hasUnderscoreNumberPattern prevText &&
        ((extractBaseAndSuffix text).1 == (extractBaseAndSuffix prevText).1) then
      underscoreReuse oracle prevTrans text
    else
      match oracle text with
      | none => RowResult.failed [text]
      | some tr => RowResult.saved tr [text]

/-- One iteration body of `iterateAndTranslate` for a row at loop index
`i` (0-based; the sheet row number is `i + 1`): skip rows that do not
reach the source column, then decide on the trimmed source text. -/
def processRow (oracle : Oracle) (mode : Str) (prevText prevTrans : Str)
    (row : List Str) (sourceIndex targetIndex : Nat) : RowResult :=
  if row.length ≤ sourceIndex then RowResult.skipped
  else
    rowDecide oracle mode prevText prevTrans (trimSpace (row.getD sourceIndex []))
      (if decide (targetIndex < row.length) then some (row.getD targetIndex []) else none)

/-- A cell write performed through the sheet port:
`excelize.CoordinatesToCellName(targetIndex+1, i+1)` yields the 1-based
coordinates `(row, col)` recorded here. -/
structure Write where
  row : Nat
  col : Nat
  val : Str
deriving DecidableEq, Repr

/-- Observable state of one run of `iterateAndTranslate`: the rolling
history pair, the quick-mode skip counter, the cell writes in order, and
the translation-port call arguments in order. -/
structure RunState where
  prevText : Str
  prevTrans : Str
  skipped : Nat
  writes : List Write
  calls : List Str
deriving DecidableEq, Repr

/-- Effect of the loop body at index `i` on the run state: index 0 is the
header row and is skipped; rows reaching `saveAndContinue` write the
result at `(i+1, targetIndex+1)` and overwrite the history pair. -/
def applyRow (oracle : Oracle) (mode : Str) (sourceIndex targetIndex : Nat)
    (st : RunState) (i : Nat) (row : List Str) : RunState :=
  if i = 0 then st
  else
    match processRow oracle mode st.prevText st.prevTrans row sourceIndex targetIndex with
    | RowResult.skipped => st
    | RowResult.quickSkipped => { st with skipped := st.skipped + 1 }
    | RowResult.copied v =>
        { st with writes := st.writes ++ [⟨i + 1, targetIndex + 1, v⟩] }
    | RowResult.saved v cs =>
        { st with
          writes := st.writes ++ [⟨i + 1, targetIndex + 1, v⟩],
          calls := st.calls ++ cs,
          prevText := trimSpace (row.getD sourceIndex []),
          prevTrans := v }
    | RowResult.failed cs => { st with calls := st.calls ++ cs }

/-- Left-to-right loop of `iterateAndTranslate` starting at index `i`. -/
def runRowsAux (oracle : Oracle) (mode : Str) (sourceIndex targetIndex : Nat) :
    Nat → List (List Str) → RunState → RunState
  | _, [], st => st
  | i, row :: rest, st =>
      runRowsAux oracle mode sourceIndex targetIndex (i + 1) rest
        (applyRow oracle mode sourceIndex targetIndex st i row)

/-- A complete run of `iterateAndTranslate` over `rows`, starting with the
empty history of the Go zero values. -/
def runTranslate (oracle : Oracle) (mode : Str) (sourceIndex targetIndex : Nat)
    (rows : List (List Str)) : RunState :=
  runRowsAux oracle mode sourceIndex targetIndex 0 rows ⟨[], [], 0, [], []⟩

/-- Replay of the recorded cell writes on a sheet given as a function of
1-based `(row, col)` coordinates. -/
def applyWrites (sheet : Nat → Nat → Str) (ws : List Write) : Nat → Nat → Str :=
  ws.foldl (fun sh w => fun r c => if r = w.row ∧ c = w.col then w.val else sh r c) sheet

/-- The placeholder token `{{N}}` of the pattern-cache variant. -/
def tokN : Str := ['{', '{', 'N', '}', '}']

/-- Accumulating scanner behind `normalizeText`: `inRun` records whether
the previous character was a digit, `patAcc` the pattern built so far
(reversed), `runs` the digit runs found so far (reversed, the current run
itself reversed). -/
def normGo : Str → Bool → Str → List Str → Str × List Str
  | [], _, patAcc, runs => (patAcc.reverse, (runs.map List.reverse).reverse)
  | c :: cs, inRun, patAcc, runs =>
    if isDigitChar c then
      if inRun then
        normGo cs true patAcc
          (match runs with
           | [] => [[c]]
           | r :: rs => (c :: r) :: rs)
      else normGo cs true (tokN.reverse ++ patAcc) ([c] :: runs)
    else normGo cs false (c :: patAcc) runs

/-- Model of `normalizeText` from the pattern-cache variant (`README.md`):
replace every maximal digit run with `{{N}}` (the regexp `\d+` replacement)
and return the runs in order (`FindAllString`). -/
def normalizeText (s : Str) : Str × List Str := normGo s false [] []

/-- Model of Go `strings.Count(s, "{{N}}")`: non-overlapping occurrences
of the placeholder token. -/
def countTok : Str → Nat
  | '{' :: '{' :: 'N' :: '}' :: '}' :: rest => countTok rest + 1
  | _ :: rest => countTok rest
  | [] => 0

/-- Model of Go `strings.Replace(s, "{{N}}", num, 1)`: substitute into the
first occurrence of the placeholder token. -/
def replaceFirstTok : Str → Str → Str
  | '{' :: '{' :: 'N' :: '}' :: '}' :: rest, num => num ++ rest
  | c :: rest, num => c :: replaceFirstTok rest num
  | [], _ => []

/-- The reconstruction loop of the pattern-cache variant: substitute the
extracted numbers into the cached translated pattern in order. -/
def substNums (pat : Str) (nums : List Str) : Str :=
  nums.foldl (fun t n => replaceFirstTok t n) pat

/-- Lookup in the run-scoped pattern cache (Go map read). -/
def cacheGet (cache : List (Str × Str)) (k : Str) : Option Str :=
  match cache.find? (fun e => e.1 == k) with
  | some e => some e.2
  | none => none

/-- Store into the run-scoped pattern cache (Go map write: the new binding
replaces any previous binding of the key). -/
def cacheSet (cache : List (Str × Str)) (k v : Str) : List (Str × Str) :=
  cache.filter (fun e => !(e.1 == k)) ++ [(k, v)]

/-- The cache-lookup attempt of the pattern-cache variant: a hit requires
the key to be present, the text to have at least one extracted number, and
the stored pattern's placeholder-token count to equal that number count;
on a hit the numbers are substituted into the stored pattern in order. -/
def cacheHit (cache : List (Str × Str)) (text : Str) : Option Str :=
  match cacheGet cache (normalizeText text).1 with
  | some tp =>
    if decide (0 < (normalizeText text).2.length) &&
        (countTok tp == (normalizeText text).2.length) then
      some (substNums tp (normalizeText text).2)
    else none
  | none => none

/-- The guarded cache insertion after a fresh translation: store the
normalized pair only when the source text has at least one number and the
translation has exactly as many digit runs. -/
def cacheInsert (cache : List (Str × Str)) (text tr : Str) : List (Str × Str) :=
  if decide (0 < (normalizeText text).2.length) &&
      ((normalizeText tr).2.length == (normalizeText text).2.length) then
    cacheSet cache (normalizeText text).1 (normalizeText tr).1
  else cache

/-- The decision pipeline of the pattern-cache variant on the trimmed cell
text: length/numeral/meaningless checks, cache lookup, fresh translation
with guarded insertion. -/
def cacheStep (oracle : Oracle) (cache : List (Str × Str)) (text : Str) :
    List (Str × Str) × Option Str × List Str :=
  if byteLen text < 4 then (cache, none, [])
  else if atoiOk text then (cache, none, [])
  else if alarmMatch text then (cache, none, [])
  else
    match cacheHit cache text with
    | some v => (cache, some v, [])
    | none =>
      match oracle text with
      | none => (cache, none, [text])
      | some tr => (cacheInsert cache text tr, some tr, [text])

/-- One non-header iteration of the pattern-cache variant of
`iterateAndTranslate` (`README.md`): returns the new cache, the value
written to the target cell (if any), and the translation-port call
arguments. -/
def cacheProcessRow (oracle : Oracle) (cache : List (Str × Str))
    (row : List Str) (sourceIndex : Nat) :
    List (Str × Str) × Option Str × List Str :=
  if row.length ≤ sourceIndex then (cache, none, [])
  else cacheStep oracle cache (trimSpace (row.getD sourceIndex []))

/-- Cache evolution of a run of the pattern-cache variant starting at loop
index `i` (index 0 is the skipped header row). -/
def cacheRunAux (oracle : Oracle) (sourceIndex : Nat) :
    Nat → List (List Str) → List (Str × Str) → List (Str × Str)
  | _, [], cache => cache
  | i, row :: rest, cache =>
    if i = 0 then cacheRunAux oracle sourceIndex (i + 1) rest cache
    else
      cacheRunAux oracle sourceIndex (i + 1) rest
        (cacheProcessRow oracle cache row sourceIndex).1

/-- An always-failing translation port. -/
def oracleNone : Oracle := fun _ => none

/-- Port for the end-to-end underscore scenario: row 1's fresh translation
of `"Start_1"` succeeds with `"Démarrer_1"`; everything else errors. -/
def oracleStart : Oracle :=
  fun s => if s == "Start_1".toList then some ("Démarrer_1".toList) else none

/-- Rows of the end-to-end underscore scenario (header plus two rows with
empty target cells). -/
def rowsStart : List (List Str) :=
  [["h".toList], ["Start_1".toList, []], ["Start_2".toList, []]]

/-- Port for the `"Text"`-leak run: translates `"A#q"` and the suffix
`"Text"`; everything else errors. -/
def oracleLeak : Oracle :=
  fun s =>
    if s == "A#q".toList then some ("B#q".toList)
    else if s == "Text".toList then some ("Texte".toList)
    else none

/-- Rows of the `"Text"`-leak run: a translatable row, a row whose `#`
suffix is literally `"Text"`, and a no-op default row. -/
def rowsLeak : List (List Str) :=
  [["h".toList], ["A#q".toList], ["A#Text".toList], ["Text".toList]]

/-- Port that translates `"x#a"` and errors on everything else (in
particular on the suffix `"b"`). -/
def oracleHashErr : Oracle :=
  fun s => if s == "x#a".toList then some ("y#a".toList) else none

/-- Rows for the suffix-error run: the second row's suffix translation
fails. -/
def rowsHashErr : List (List Str) :=
  [["h".toList], ["x#a".toList], ["x#b".toList]]

/-- Rows for the numeric-suffix reuse run: the second row is served
entirely from the history, with no translation call. -/
def rowsHashNum : List (List Str) :=
  [["h".toList], ["x#a".toList], ["x#1".toList]]

/-- A translation result that itself contains the literal placeholder
token: `"{{N}} 5"`. -/
def trickyTrans : Str := tokN ++ [' ', '5']

/-- Port of the token-count run: translating `"Alarm 7"` yields a text
containing the literal `{{N}}`. -/
def oracleTok : Oracle :=
  fun s => if s == "Alarm 7".toList then some trickyTrans else none

/-- Rows of the token-count run. -/
def rowsTok : List (List Str) := [["h".toList], ["Alarm 7".toList]]

/-- The cache key produced by `"Alarm 7"`: `"Alarm {{N}}"`. -/
def keyTok : Str := "Alarm ".toList ++ tokN

/-- The cached value produced by the token-count run: `"{{N}} {{N}}"`. -/
def valTok : Str := tokN ++ ' ' :: tokN

/-- A source text containing the literal placeholder token: `"a {{N}} 5"`.
Its normalized pattern collides with that of `"a 1 2"`. -/
def srcColl : Str := 'a' :: ' ' :: (tokN ++ [' ', '5'])

/-- The second source of the collision run: `"a 1 2"`. -/
def srcColl2 : Str := "a 1 2".toList

/-- Port of the collision run: `"a {{N}} 5"` translates to `"b 9"` and
`"a 1 2"` to `"c 3 4"`. -/
def oracleColl : Oracle :=
  fun s =>
    if s == srcColl then some ("b 9".toList)
    else if s == srcColl2 then some ("c 3 4".toList)
    else none

/-- The shared cache key of the collision run: `"a {{N}} {{N}}"`. -/
def keyColl : Str := 'a' :: ' ' :: (tokN ++ ' ' :: tokN)

/-- Cache value after the first collision row: `"b {{N}}"`. -/
def valColl1 : Str := 'b' :: ' ' :: tokN

/-- Cache value after the second collision row: `"c {{N}} {{N}}"`. -/
def valColl2 : Str := 'c' :: ' ' :: (tokN ++ ' ' :: tokN)

/-- An all-empty sheet, for exercising the write replay. -/
def sheetZero : Nat → Nat → Str := fun _ _ => []

/-- The well-formedness predicate of a pattern-cache entry that the code
actually maintains: the key is the normalized pattern of some source text,
the value the normalized pattern of some fresh translation, and the two
texts have the same (positive) number of digit runs. -/
def cacheEntryOK (e : Str × Str) : Prop :=
  ∃ src tr : Str,
    e.1 = (normalizeText src).1 ∧ e.2 = (normalizeText tr).1 ∧
    (normalizeText src).2.length = (normalizeText tr).2.length ∧
    0 < (normalizeText src).2.length

theorem digit_not_goSpace {c : Char} (h : isDigitChar c = true) : isGoSpace c = false := by
  cases hb : isGoSpace c with
  | false => rfl
  | true =>
    simp only [isGoSpace, Bool.or_eq_true, beq_iff_eq] at hb
    rcases hb with ((((rfl | rfl) | rfl) | rfl) | rfl) | rfl <;> exact absurd h (by decide)

theorem utf8Len_pos (c : Char) : 1 ≤ utf8Len c := by
  unfold utf8Len
  split
  · omega
  · split
    · omega
    · split <;> omega

theorem length_le_byteLen (s : Str) : s.length ≤ byteLen s := by
  induction s with
  | nil => simp [byteLen]
  | cons c cs ih =>
    have hc := utf8Len_pos c
    simp only [byteLen, List.map_cons, List.sum_cons, List.length_cons]
    simp only [byteLen] at ih
    omega

theorem dropWhile_eq_self_of {p : Char → Bool} {s : Str} (h : ∀ c ∈ s, p c = false) :
    s.dropWhile p = s := by
  cases s with
  | nil => rfl
  | cons c cs => simp [List.dropWhile_cons, h c (List.mem_cons_self c cs)]

theorem trimSpace_eq_self {s : Str} (h : ∀ c ∈ s, isGoSpace c = false) : trimSpace s = s := by
  unfold trimSpace
  rw [dropWhile_eq_self_of h,
    dropWhile_eq_self_of (fun c hc => h c (List.mem_reverse.mp hc)), List.reverse_reverse]

theorem atoi_no_space {s : Str} (h : atoiOk s = true) : ∀ c ∈ s, isGoSpace c = false := by
  cases s with
  | nil => intro c hc; simp at hc
  | cons a rest =>
    intro c hc
    simp only [atoiOk] at h
    by_cases ha : a = '+'
    · subst ha
      rw [if_pos (show (('+' : Char) == '+') = true from by decide)] at h
      simp only [Bool.and_eq_true] at h
      have hall := h.1.2
      rcases List.mem_cons.mp hc with rfl | hm
      · decide
      · exact digit_not_goSpace (List.all_eq_true.mp hall c hm)
    · by_cases hb : a = '-'
      · subst hb
        rw [if_neg (show ¬ ((('-' : Char) == '+') = true) from by decide),
          if_pos (show (('-' : Char) == '-') = true from by decide)] at h
        simp only [Bool.and_eq_true] at h
        have hall := h.1.2
        rcases List.mem_cons.mp hc with rfl | hm
        · decide
        · exact digit_not_goSpace (List.all_eq_true.mp hall c hm)
      · rw [if_neg (fun hh => ha (beq_iff_eq.mp hh)),
          if_neg (fun hh => hb (beq_iff_eq.mp hh))] at h
        simp only [Bool.and_eq_true] at h
        have hall := h.1
        exact digit_not_goSpace (List.all_eq_true.mp hall c hc)

theorem trimSpace_atoi {s : Str} (h : atoiOk s = true) : trimSpace s = s :=
  trimSpace_eq_self (atoi_no_space h)

theorem containsChar_hash (a s : Str) : containsChar (a ++ '#' :: s) '#' = true := by
  simp [containsChar, List.any_append, List.any_cons]

theorem splitN2_hash (a s : Str) (h : containsChar a '#' = false) :
    splitN2 '#' (a ++ '#' :: s) = [a, s] := by
  induction a with
  | nil => simp [splitN2]
  | cons c a ih =>
    simp only [containsChar, List.any_cons, Bool.or_eq_false_iff] at h
    have ih2 := ih (by simpa [containsChar] using h.2)
    simp [List.cons_append, splitN2, h.1, ih2]

theorem eqFold_length {a b : Str} (h : eqFold a b = true) : a.length = b.length := by
  simp only [eqFold, lowerStr, beq_iff_eq] at h
  simpa using congrArg List.length h

/-- C2: for input rows `[("Start_1",""), ("Start_2","")]` where row 1's
fresh translation succeeded with `"Démarrer_1"` (seeding the history),
processing row 2 writes `"Démarrer_2"` to the target cell and makes no
second translation-port call: the whole run performs exactly one call,
with argument `"Start_1"`. -/
theorem c2_underscore_reuse_end_to_end :
    (runTranslate oracleStart ("full".toList) 0 1 rowsStart).writes
      = [⟨2, 2, "Démarrer_1".toList⟩, ⟨3, 2, "Démarrer_2".toList⟩] ∧
    (runTranslate oracleStart ("full".toList) 0 1 rowsStart).calls
      = ["Start_1".toList] := by decide

/-- C3 counterexample: in the run over `rowsLeak`, row 3 has trimmed
source text `"Text"` (case-insensitively `"text"`, classified
`NoOpDefault`), yet that very string is passed to the translation port —
as the suffix argument of row 2's `#`-reuse path.  The claim's clause
"that text is never passed as the argument of any translation-port call
during the run" is therefore false. -/
theorem c3_counterexample :
    eqFold (trimSpace ((rowsLeak.getD 3 []).getD 0 [])) ("text".toList) = true ∧
    classify (trimSpace ((rowsLeak.getD 3 []).getD 0 [])) = Classification.noOpDefault ∧
    (runTranslate oracleLeak ("full".toList) 0 1 rowsLeak).calls.contains
      (trimSpace ((rowsLeak.getD 3 []).getD 0 [])) = true := by decide

/-- C4 counterexample: with history `("x#a", "y#a")`, processing the row
`"x#b"` makes one translation-port call (argument `"b"`) that returns an
error, and the row nevertheless writes — `saveAndContinue` stores the
original source text `"x#b"` in the target cell.  In the full run the
write at sheet row 3 is visible.  The claim that an erroring call leaves
the row's target cell unmodified is therefore false. -/
theorem c4_counterexample :
    processRow oracleHashErr ("full".toList) ("x#a".toList) ("y#a".toList)
      ["x#b".toList] 0 1 = RowResult.saved ("x#b".toList) ["b".toList] ∧
    oracleHashErr ("b".toList) = none ∧
    (runTranslate oracleHashErr ("full".toList) 0 1 rowsHashErr).writes
      = [⟨2, 2, "y#a".toList⟩, ⟨3, 2, "x#b".toList⟩] := by decide

/-- C5 counterexample: in the run over `rowsHashNum`, row 3 (`"x#1"`) is a
reused row — its result is produced with no translation-port call (the run
makes exactly one call, for row 2) — and yet the rolling history pair is
updated to `("x#1", "y#1")` afterwards.  The claim that the history is
never updated after a reused row is therefore false. -/
theorem c5_counterexample :
    processRow oracleHashErr ("full".toList) ("x#a".toList) ("y#a".toList)
      ["x#1".toList] 0 1 = RowResult.saved ("y#1".toList) [] ∧
    (runTranslate oracleHashErr ("full".toList) 0 1 rowsHashNum).calls
      = ["x#a".toList] ∧
    (runTranslate oracleHashErr ("full".toList) 0 1 rowsHashNum).prevText
      = "x#1".toList ∧
    (runTranslate oracleHashErr ("full".toList) 0 1 rowsHashNum).prevTrans
      = "y#1".toList := by decide

/-- C7 counterexample: the trimmed text `"##"` has length 2 (< 3) but the
placeholder check precedes the length check in `iterateAndTranslate`, so
it is classified `Placeholder`, not `TooShort`. -/
theorem c7_counterexample :
    ("##".toList : Str).length < 3 ∧
    classify ("##".toList) = Classification.placeholder ∧
    classify ("##".toList) ≠ Classification.tooShort := by decide

/-- C8 counterexample: in the run over `rowsTok`, translating `"Alarm 7"`
returns `"{{N}} 5"`, a text containing the literal placeholder token.  The
digit-run guard passes (one digit run on each side), so the cache stores
`("Alarm {{N}}" → "{{N}} {{N}}")` — an entry whose stored pattern contains
two placeholder tokens while the source text that produced the key has
one extracted number.  The claimed token-count invariant is therefore
false. -/
theorem c8_counterexample :
    cacheGet (cacheRunAux oracleTok 0 0 rowsTok []) keyTok = some valTok ∧
    countTok valTok = 2 ∧
    (normalizeText ("Alarm 7".toList)).2.length = 1 ∧
    keyTok = (normalizeText ("Alarm 7".toList)).1 := by decide

/-- C9 counterexample: the sources `"a {{N}} 5"` and `"a 1 2"` normalize
to the same pattern `"a {{N}} {{N}}"`.  After the first row the cache
holds `("a {{N}} {{N}}" → "b {{N}}")`; the second row finds the key but
fails the placeholder-count check (1 token vs 2 numbers), is translated
freshly, and re-stores the key with `"c {{N}} {{N}}"` — overwriting the
earlier value in the same run.  First-writer-wins is therefore false. -/
theorem c9_counterexample :
    cacheGet (cacheRunAux oracleColl 0 0 [["h".toList], [srcColl]] []) keyColl
      = some valColl1 ∧
    cacheGet (cacheRunAux oracleColl 0 0 [["h".toList], [srcColl], [srcColl2]] []) keyColl
      = some valColl2 ∧
    valColl1 ≠ valColl2 := by decide

/-- C1: delimiter-split reuse with numeric suffix.  For every run state
whose history holds previous source text `a#s1` and previous translation
`ta#t1` (with `a`, `ta` free of `#`, so they are the pre-`#` parts), when
the engine processes a translatable row whose trimmed text is `a#s2` with
`s2` parsing as an integer, it produces the write `ta#s2` and performs no
translation-port call for that row. -/
theorem c1_delimiter_numeric_reuse
    (oracle : Oracle) (a ta s1 t1 s2 : Str) (row : List Str) (si ti : Nat)
    (hrow : si < row.length)
    (htext : trimSpace (row.getD si []) = a ++ '#' :: s2)
    (hclass : classify (a ++ '#' :: s2) = Classification.translatable)
    (ha : containsChar a '#' = false)
    (hta : containsChar ta '#' = false)
    (hs2 : atoiOk s2 = true) :
    processRow oracle ("full".toList) (a ++ '#' :: s1) (ta ++ '#' :: t1) row si ti
      = RowResult.saved (ta ++ '#' :: s2) [] := by
  have hm : (("full".toList : Str) == "quick".toList) = false := by decide
  unfold processRow
  rw [if_neg (by omega), htext]
  unfold rowDecide
  simp only [hclass, quickGate, hm, Bool.false_and, Bool.false_eq_true, if_false]
  rw [splitN2_hash a s2 ha, splitN2_hash a s1 ha, splitN2_hash ta t1 hta]
  simp only [containsChar_hash, List.length_cons, List.length_nil, List.headD_cons,
    Bool.true_and, beq_self_eq_true, decide_True, Bool.and_self]
  rw [if_pos (by simp)]
  unfold hashReuse
  rw [splitN2_hash a s2 ha, splitN2_hash ta t1 hta]
  simp only [List.getD_cons_succ, List.getD_cons_zero, List.headD_cons,
    trimSpace_atoi hs2, hs2, if_true]

theorem hashReuse_ne_quick (o : Oracle) (pt t : Str) :
    hashReuse o pt t ≠ RowResult.quickSkipped := by
  unfold hashReuse
  dsimp only
  split
  · simp
  · split <;> simp

theorem underscoreReuse_ne_quick (o : Oracle) (pt t : Str) :
    underscoreReuse o pt t ≠ RowResult.quickSkipped := by
  unfold underscoreReuse
  dsimp only
  split
  · simp
  · split <;> simp

theorem rowDecide_eq_quick_iff (oracle : Oracle) (mode prevT prevTr text : Str)
    (tc : Option Str) (hclass : classify text = Classification.translatable) :
    (rowDecide oracle mode prevT prevTr text tc = RowResult.quickSkipped ↔
      quickGate mode tc = true) := by
  unfold rowDecide
  simp only [hclass]
  cases hg : quickGate mode tc with
  | true => simp
  | false =>
    rw [if_neg (by simp [hg])]
    refine iff_of_false ?_ (by simp)
    split
    · exact hashReuse_ne_quick _ _ _
    · split
      · exact underscoreReuse_ne_quick _ _ _
      · split <;> simp

/-- Witness for C1 at the claim's own instance: history `("A#1", "Ä#1")`,
current row `"A#2"`, result `"Ä#2"` with no translation call. -/
theorem c1_delimiter_numeric_reuse_witness :
    processRow oracleNone ("full".toList) ("A".toList ++ '#' :: "1".toList)
      ("Ä".toList ++ '#' :: "1".toList) ["A#2".toList] 0 1
      = RowResult.saved ("Ä".toList ++ '#' :: "2".toList) [] :=
  c1_delimiter_numeric_reuse oracleNone ("A".toList) ("Ä".toList) ("1".toList)
    ("1".toList) ("2".toList) ["A#2".toList] 0 1 (by decide) (by decide) (by decide)
    (by decide) (by decide) (by decide)

/-- C6 (quick-mode gate): for every translatable row processed in quick
mode whose target cell exists, the row is quick-skipped precisely when the
target cell trimmed, stripped of surrounding double quotes and lowercased
is non-empty and differs from `"text"`; in particular an empty, `"Text"`,
`"text"` or `"\"Text\""` target leaves the row eligible for translation. -/
theorem c6_quick_mode_gate
    (oracle : Oracle) (prevT prevTr : Str) (row : List Str) (si ti : Nat)
    (hrow : si < row.length) (htgt : ti < row.length)
    (hclass : classify (trimSpace (row.getD si [])) = Classification.translatable) :
    processRow oracle ("quick".toList) prevT prevTr row si ti = RowResult.quickSkipped ↔
      (lowerStr (trimQuote (trimSpace (row.getD ti []))) ≠ [] ∧
       lowerStr (trimQuote (trimSpace (row.getD ti []))) ≠ "text".toList) := by
  unfold processRow
  rw [if_neg (by omega), if_pos (by simpa using htgt)]
  rw [rowDecide_eq_quick_iff _ _ _ _ _ _ hclass]
  have hq : (("quick".toList : Str) == "quick".toList) = true := by decide
  simp only [quickGate, hq, Bool.true_and]
  simp [Bool.and_eq_true, List.isEmpty_eq_false]

/-- Witness for C6: row with source `"hello"` and target `"done"` in quick
mode is quick-skipped, the processed target text being `"done"`. -/
theorem c6_quick_mode_gate_witness :
    processRow oracleNone ("quick".toList) [] [] ["hello".toList, "done".toList] 0 1
      = RowResult.quickSkipped :=
  (c6_quick_mode_gate oracleNone [] [] ["hello".toList, "done".toList] 0 1
    (by decide) (by decide) (by decide)).mpr ⟨by decide, by decide⟩

/-- C3 (amended): every row whose trimmed source text case-insensitively
equals `"text"` is classified `NoOpDefault` and skipped — no write, no
call and no history change arise from that row.  (The original claim's
global clause fails: such a string can still reach the translation port as
the suffix argument of another row's reuse path, see the counterexample.) -/
theorem c3_noop_default_skip
    (oracle : Oracle) (mode prevT prevTr : Str) (row : List Str) (si ti : Nat)
    (hrow : si < row.length)
    (hfold : eqFold (trimSpace (row.getD si [])) ("Text".toList) = true) :
    classify (trimSpace (row.getD si [])) = Classification.noOpDefault ∧
    processRow oracle mode prevT prevTr row si ti = RowResult.skipped := by
  have hcl : classify (trimSpace (row.getD si [])) = Classification.noOpDefault := by
    unfold classify
    rw [if_pos hfold]
  refine ⟨hcl, ?_⟩
  unfold processRow
  rw [if_neg (by omega)]
  unfold rowDecide
  simp only [hcl]

/-- Witness for C3 (amended) on the row `["tEXt"]`. -/
theorem c3_noop_default_skip_witness :
    classify (trimSpace (["tEXt".toList].getD 0 [])) = Classification.noOpDefault ∧
    processRow oracleNone ("full".toList) [] [] ["tEXt".toList] 0 1
      = RowResult.skipped :=
  c3_noop_default_skip oracleNone ("full".toList) [] [] ["tEXt".toList] 0 1
    (by decide) (by decide)

/-- C7 (amended): every row whose trimmed source text has UTF-8 byte
length below 3 (Go's `len`) is copied verbatim to the target cell; it is
classified `TooShort` exactly when it is not placeholder-shaped — the
placeholder check precedes the length check, so `"##"`, `"@"`, `"@@"`
classify `Placeholder` (and are likewise copied verbatim). -/
theorem c7_short_text_copied
    (oracle : Oracle) (mode prevT prevTr : Str) (row : List Str) (si ti : Nat)
    (hrow : si < row.length)
    (hlen : byteLen (trimSpace (row.getD si [])) < 3) :
    processRow oracle mode prevT prevTr row si ti
      = RowResult.copied (trimSpace (row.getD si [])) ∧
    (isPlaceholder (trimSpace (row.getD si [])) = false →
      classify (trimSpace (row.getD si [])) = Classification.tooShort) ∧
    (isPlaceholder (trimSpace (row.getD si [])) = true →
      classify (trimSpace (row.getD si [])) = Classification.placeholder) := by
  set t := trimSpace (row.getD si []) with ht
  have hlen2 : t.length < 3 := lt_of_le_of_lt (length_le_byteLen t) hlen
  have hfold : eqFold t ("Text".toList) = false := by
    cases hf : eqFold t ("Text".toList) with
    | false => rfl
    | true =>
      have h4 : t.length = 4 := by simpa using eqFold_length hf
      omega
  cases hp : isPlaceholder t with
  | true =>
    have hcl : classify t = Classification.placeholder := by
      unfold classify
      rw [if_neg (by rw [hfold]; simp), if_pos hp]
    refine ⟨?_, ?_, fun _ => hcl⟩
    · unfold processRow
      rw [if_neg (by omega)]
      unfold rowDecide
      rw [← ht]
      simp only [hcl]
    · intro h
      exact absurd h (by decide)
  | false =>
    have hcl : classify t = Classification.tooShort := by
      unfold classify
      rw [if_neg (by rw [hfold]; simp), if_neg (by rw [hp]; simp)]
      rw [if_pos (by simp [hlen])]
    refine ⟨?_, fun _ => hcl, ?_⟩
    · unfold processRow
      rw [if_neg (by omega)]
      unfold rowDecide
      rw [← ht]
      simp only [hcl]
    · intro h
      exact absurd h (by decide)

/-- Witness for C7 (amended) on the row `["x"]`. -/
theorem c7_short_text_copied_witness :
    processRow oracleNone ("full".toList) [] [] ["x".toList] 0 1
      = RowResult.copied (trimSpace (["x".toList].getD 0 [])) ∧
    (isPlaceholder (trimSpace (["x".toList].getD 0 [])) = false →
      classify (trimSpace (["x".toList].getD 0 [])) = Classification.tooShort) ∧
    (isPlaceholder (trimSpace (["x".toList].getD 0 [])) = true →
      classify (trimSpace (["x".toList].getD 0 [])) = Classification.placeholder) :=
  c7_short_text_copied oracleNone ("full".toList) [] [] ["x".toList] 0 1
    (by decide) (by decide)

/-- C5 (amended): the rolling history pair changes only for non-header
rows whose processing reaches the `saveAndContinue` label — fresh
successful translations and reuse rows alike (including suffix
translations and their error fallback) — and is then set to the trimmed
source text and the written value.  Skipped rows, quick-skipped rows,
copied rows and failed full-text translations never change it. -/
theorem c5_history_update_on_save
    (oracle : Oracle) (mode : Str) (si ti : Nat) (st : RunState) (i : Nat)
    (row : List Str)
    (hch : (applyRow oracle mode si ti st i row).prevText ≠ st.prevText ∨
           (applyRow oracle mode si ti st i row).prevTrans ≠ st.prevTrans) :
    i ≠ 0 ∧ ∃ v cs,
      processRow oracle mode st.prevText st.prevTrans row si ti = RowResult.saved v cs ∧
      (applyRow oracle mode si ti st i row).prevText = trimSpace (row.getD si []) ∧
      (applyRow oracle mode si ti st i row).prevTrans = v := by
  by_cases hi : i = 0
  · subst hi
    have h0 : applyRow oracle mode si ti st 0 row = st := by
      unfold applyRow
      rw [if_pos rfl]
    rw [h0] at hch
    simp at hch
  · refine ⟨hi, ?_⟩
    unfold applyRow at hch ⊢
    rw [if_neg hi] at hch ⊢
    cases hp : processRow oracle mode st.prevText st.prevTrans row si ti with
    | skipped => simp only [hp] at hch; simp at hch
    | quickSkipped => simp only [hp] at hch; simp at hch
    | copied v => simp only [hp] at hch; simp at hch
    | failed cs => simp only [hp] at hch; simp at hch
    | saved v cs =>
      refine ⟨v, cs, ?_, ?_, ?_⟩ <;> simp [hp]

/-- Witness for C5 (amended): processing `["Start_1"]` from the empty
history freshly translates and updates the history. -/
theorem c5_history_update_on_save_witness :
    1 ≠ 0 ∧ ∃ v cs,
      processRow oracleStart ("full".toList)
        (RunState.mk [] [] 0 [] []).prevText (RunState.mk [] [] 0 [] []).prevTrans
        ["Start_1".toList] 0 1 = RowResult.saved v cs ∧
      (applyRow oracleStart ("full".toList) 0 1 (RunState.mk [] [] 0 [] []) 1
        ["Start_1".toList]).prevText = trimSpace (["Start_1".toList].getD 0 []) ∧
      (applyRow oracleStart ("full".toList) 0 1 (RunState.mk [] [] 0 [] []) 1
        ["Start_1".toList]).prevTrans = v :=
  c5_history_update_on_save oracleStart ("full".toList) 0 1
    (RunState.mk [] [] 0 [] []) 1 ["Start_1".toList] (Or.inl (by decide))

/-- C4 (amended): per-row error recovery.  Whenever a translatable row
takes the full-text translation path — neither the `#`-reuse guard nor the
underscore-reuse guard of `iterateAndTranslate` holds against the current
history — and the call errors, nothing is written for the row, the history
is unchanged (`failed`) and processing continues with the next row.  When
a suffix translation inside the `#`-reuse path errors, the engine instead
falls back to writing the original source text verbatim. -/
theorem c4_translation_error_handling :
    (∀ (oracle : Oracle) (prevT prevTr : Str) (row : List Str) (si ti : Nat),
      si < row.length →
      classify (trimSpace (row.getD si [])) = Classification.translatable →
      (containsChar (trimSpace (row.getD si [])) '#' && containsChar prevT '#' &&
        decide ((splitN2 '#' (trimSpace (row.getD si []))).length = 2) &&
        decide ((splitN2 '#' prevT).length = 2) &&
        ((splitN2 '#' (trimSpace (row.getD si []))).headD []
          == (splitN2 '#' prevT).headD []) &&
        decide ((splitN2 '#' prevTr).length = 2)) = false →
      (hasUnderscoreNumberPattern (trimSpace (row.getD si [])) &&
        hasUnderscoreNumberPattern prevT &&
        ((extractBaseAndSuffix (trimSpace (row.getD si []))).1
          == (extractBaseAndSuffix prevT).1)) = false →
      oracle (trimSpace (row.getD si [])) = none →
      processRow oracle ("full".toList) prevT prevTr row si ti
        = RowResult.failed [trimSpace (row.getD si [])]) ∧
    (∀ (oracle : Oracle) (a ta s1 t1 sfx : Str) (row : List Str) (si ti : Nat),
      si < row.length →
      trimSpace (row.getD si []) = a ++ '#' :: sfx →
      classify (a ++ '#' :: sfx) = Classification.translatable →
      containsChar a '#' = false →
      containsChar ta '#' = false →
      atoiOk (trimSpace sfx) = false →
      oracle (trimSpace sfx) = none →
      processRow oracle ("full".toList) (a ++ '#' :: s1) (ta ++ '#' :: t1) row si ti
        = RowResult.saved (a ++ '#' :: sfx) [trimSpace sfx]) := by
  have hm : (("full".toList : Str) == "quick".toList) = false := by decide
  constructor
  · intro oracle prevT prevTr row si ti hrow hclass hhash hund horacle
    unfold processRow
    rw [if_neg (by omega)]
    unfold rowDecide
    simp only [hclass, quickGate, hm, Bool.false_and, Bool.false_eq_true, if_false]
    rw [if_neg (by rw [hhash]; simp), if_neg (by rw [hund]; simp)]
    rw [horacle]
  · intro oracle a ta s1 t1 sfx row si ti hrow htext hclass ha hta hsfx horacle
    unfold processRow
    rw [if_neg (by omega), htext]
    unfold rowDecide
    simp only [hclass, quickGate, hm, Bool.false_and, Bool.false_eq_true, if_false]
    rw [splitN2_hash a sfx ha, splitN2_hash a s1 ha, splitN2_hash ta t1 hta]
    simp only [containsChar_hash, List.length_cons, List.length_nil, List.headD_cons,
      Bool.true_and, beq_self_eq_true, decide_True, Bool.and_self]
    rw [if_pos (by simp)]
    unfold hashReuse
    rw [splitN2_hash a sfx ha]
    simp only [List.getD_cons_succ, List.getD_cons_zero]
    rw [if_neg (by rw [hsfx]; simp), horacle]

/-- Witness for C4 (amended): both parts at concrete inputs — a failing
full-text translation of `"bar#baz"` (a `#`-bearing row whose previous
text holds no `#`, so the reuse guards fail) writes nothing, and a failing
suffix translation of `"b"` inside the `#`-reuse path writes the source
text. -/
theorem c4_translation_error_handling_witness :
    processRow oracleNone ("full".toList) [] [] ["bar#baz".toList] 0 1
      = RowResult.failed [trimSpace (["bar#baz".toList].getD 0 [])] ∧
    processRow oracleHashErr ("full".toList) ("x".toList ++ '#' :: "a".toList)
      ("y".toList ++ '#' :: "a".toList) ["x#b".toList] 0 1
      = RowResult.saved ("x".toList ++ '#' :: "b".toList) [trimSpace ("b".toList)] :=
  ⟨c4_translation_error_handling.1 oracleNone [] [] ["bar#baz".toList] 0 1
      (by decide) (by decide) (by decide) (by decide) (by decide),
   c4_translation_error_handling.2 oracleHashErr ("x".toList) ("y".toList)
      ("a".toList) ("a".toList) ("b".toList) ["x#b".toList] 0 1
      (by decide) (by decide) (by decide) (by decide) (by decide) (by decide) (by decide)⟩

theorem applyRow_writes_mem (oracle : Oracle) (mode : Str) (si ti : Nat)
    (st : RunState) (i : Nat) (row : List Str) :
    ∀ w ∈ (applyRow oracle mode si ti st i row).writes,
      w ∈ st.writes ∨ (w.col = ti + 1 ∧ 2 ≤ w.row) := by
  intro w hw
  unfold applyRow at hw
  by_cases hi : i = 0
  · rw [if_pos hi] at hw
    exact Or.inl hw
  · rw [if_neg hi] at hw
    cases hp : processRow oracle mode st.prevText st.prevTrans row si ti with
    | skipped => simp only [hp] at hw; exact Or.inl hw
    | quickSkipped => simp only [hp] at hw; exact Or.inl hw
    | failed cs => simp only [hp] at hw; exact Or.inl hw
    | copied v =>
      simp only [hp] at hw
      rcases List.mem_append.mp hw with h | h
      · exact Or.inl h
      · rw [List.mem_singleton.mp h]
        refine Or.inr ⟨rfl, ?_⟩
        show 2 ≤ i + 1
        omega
    | saved v cs =>
      simp only [hp] at hw
      rcases List.mem_append.mp hw with h | h
      · exact Or.inl h
      · rw [List.mem_singleton.mp h]
        refine Or.inr ⟨rfl, ?_⟩
        show 2 ≤ i + 1
        omega

theorem runRowsAux_writes_shape (oracle : Oracle) (mode : Str) (si ti : Nat) :
    ∀ (rows : List (List Str)) (i : Nat) (st : RunState),
      (∀ w ∈ st.writes, w.col = ti + 1 ∧ 2 ≤ w.row) →
      ∀ w ∈ (runRowsAux oracle mode si ti i rows st).writes,
        w.col = ti + 1 ∧ 2 ≤ w.row := by
  intro rows
  induction rows with
  | nil => intro i st h w hw; exact h w hw
  | cons row rest ih =>
    intro i st h w hw
    refine ih (i + 1) (applyRow oracle mode si ti st i row) ?_ w hw
    intro w' hw'
    rcases applyRow_writes_mem oracle mode si ti st i row w' hw' with h1 | h2
    · exact h w' h1
    · exact h2

theorem applyWrites_frame (ti : Nat) :
    ∀ (ws : List Write) (sheet : Nat → Nat → Str) (r c : Nat),
      (∀ w ∈ ws, w.col = ti + 1 ∧ 2 ≤ w.row) → (c ≠ ti + 1 ∨ r < 2) →
      applyWrites sheet ws r c = sheet r c := by
  intro ws
  induction ws with
  | nil => intro sheet r c _ _; rfl
  | cons w ws ih =>
    intro sheet r c hws hrc
    have hw := hws w (List.mem_cons_self _ _)
    have hstep : applyWrites sheet (w :: ws) r c
        = applyWrites (fun r c => if r = w.row ∧ c = w.col then w.val else sheet r c) ws r c :=
      rfl
    rw [hstep, ih _ r c (fun w' hw' => hws w' (List.mem_cons_of_mem _ hw')) hrc]
    have hcond : ¬ (r = w.row ∧ c = w.col) := by
      rcases hrc with hc | hr
      · exact fun hand => hc (hand.2.trans hw.1)
      · exact fun hand => by
          obtain ⟨h1, h2⟩ := hand
          have := hw.2
          omega
    simp only [hcond, if_false]

/-- C10 (frame property): every cell write of a run of
`iterateAndTranslate` targets the selected target column (`targetIndex+1`,
1-based) at a row number of at least 2, and replaying the writes leaves
every cell outside the target column, and the header row's target cell,
with its original value — in particular the source column is never
modified. -/
theorem c10_frame_property
    (oracle : Oracle) (mode : Str) (si ti : Nat) (rows : List (List Str))
    (sheet : Nat → Nat → Str) (r c : Nat)
    (hrc : c ≠ ti + 1 ∨ r < 2) :
    (∀ w ∈ (runTranslate oracle mode si ti rows).writes,
        w.col = ti + 1 ∧ 2 ≤ w.row) ∧
    applyWrites sheet (runTranslate oracle mode si ti rows).writes r c = sheet r c := by
  have hall : ∀ w ∈ (runTranslate oracle mode si ti rows).writes,
      w.col = ti + 1 ∧ 2 ≤ w.row := by
    unfold runTranslate
    refine runRowsAux_writes_shape oracle mode si ti rows 0 _ ?_
    intro w hw
    exact absurd hw (List.not_mem_nil w)
  exact ⟨hall, applyWrites_frame ti _ sheet r c hall hrc⟩

/-- Witness for C10 on the end-to-end underscore run: the cell `(1, 5)`
(outside the target column) keeps its original value. -/
theorem c10_frame_property_witness :
    (∀ w ∈ (runTranslate oracleStart ("full".toList) 0 1 rowsStart).writes,
        w.col = 1 + 1 ∧ 2 ≤ w.row) ∧
    applyWrites sheetZero (runTranslate oracleStart ("full".toList) 0 1 rowsStart).writes 1 5
      = sheetZero 1 5 :=
  c10_frame_property oracleStart ("full".toList) 0 1 rowsStart sheetZero 1 5
    (Or.inl (by decide))

theorem cacheSet_entry (cache : List (Str × Str)) (k v : Str) :
    ∀ e ∈ cacheSet cache k v, e ∈ cache ∨ e = (k, v) := by
  intro e he
  unfold cacheSet at he
  rcases List.mem_append.mp he with h | h
  · exact Or.inl (List.mem_of_mem_filter h)
  · exact Or.inr (List.mem_singleton.mp h)

theorem cacheInsert_entries (cache : List (Str × Str)) (text tr : Str) :
    ∀ e ∈ cacheInsert cache text tr, e ∈ cache ∨ cacheEntryOK e := by
  intro e he
  unfold cacheInsert at he
  split at he
  case isTrue hg =>
    rcases cacheSet_entry cache _ _ e he with h | h
    · exact Or.inl h
    · right
      subst h
      simp only [Bool.and_eq_true, decide_eq_true_eq, beq_iff_eq] at hg
      exact ⟨text, tr, rfl, rfl, hg.2.symm, hg.1⟩
  case isFalse => exact Or.inl he

theorem cacheStep_entries (oracle : Oracle) (cache : List (Str × Str)) (text : Str) :
    ∀ e ∈ (cacheStep oracle cache text).1, e ∈ cache ∨ cacheEntryOK e := by
  intro e he
  unfold cacheStep at he
  split at he
  · exact Or.inl he
  · split at he
    · exact Or.inl he
    · split at he
      · exact Or.inl he
      · split at he
        · exact Or.inl he
        · split at he
          · exact Or.inl he
          · exact cacheInsert_entries cache text _ e he

theorem cacheProcessRow_entries (oracle : Oracle) (cache : List (Str × Str))
    (row : List Str) (si : Nat) :
    ∀ e ∈ (cacheProcessRow oracle cache row si).1, e ∈ cache ∨ cacheEntryOK e := by
  intro e he
  unfold cacheProcessRow at he
  split at he
  · exact Or.inl he
  · exact cacheStep_entries oracle cache _ e he

/-- C8 (amended): invariant actually maintained by the pattern cache — at
every point of a run, every entry is the normalized pair of some source
text and some fresh translation whose digit-run counts agree (and are
positive); an entry is inserted only when the count of digit runs in the
fresh translation equals the count of digit runs in the source text.  (The
stronger claim that the stored pattern's `{{N}}`-token count equals the
source number count fails when the translation itself contains the literal
token, see the counterexample.) -/
theorem c8_cache_insertion_invariant
    (oracle : Oracle) (si : Nat) (rows : List (List Str)) :
    ∀ (i : Nat) (cache : List (Str × Str)),
      (∀ e ∈ cache, cacheEntryOK e) →
      ∀ e ∈ cacheRunAux oracle si i rows cache, cacheEntryOK e := by
  induction rows with
  | nil => intro i cache h e he; exact h e he
  | cons row rest ih =>
    intro i cache h e he
    unfold cacheRunAux at he
    split at he
    · exact ih (i + 1) cache h e he
    · refine ih (i + 1) _ ?_ e he
      intro e' he'
      rcases cacheProcessRow_entries oracle cache row si e' he' with h1 | h2
      · exact h e' h1
      · exact h2

/-- Witness for C8 (amended): the entry produced by the token-count run
satisfies the maintained invariant. -/
theorem c8_cache_insertion_invariant_witness : cacheEntryOK (keyTok, valTok) :=
  c8_cache_insertion_invariant oracleTok 0 rowsTok 0 []
    (fun e he => absurd he (List.not_mem_nil e)) (keyTok, valTok) (by decide)

/-- C9 (amended): cache-hit rows leave the cache alone.  For every row of
the pattern-cache variant that passes the length/numeral/meaningless
checks, whose normalized pattern is a cache key, whose extracted-number
count is positive and matches the stored pattern's placeholder-token
count, the row takes the cache-hit reconstruction path: the cache is
unchanged (no key re-stored or overwritten) and no translation call is
made.  (Unconditional first-writer-wins fails: when the placeholder-count
check fails on a colliding key the row is translated freshly and the key
is overwritten, see the counterexample.) -/
theorem c9_cache_hit_no_overwrite
    (oracle : Oracle) (cache : List (Str × Str)) (row : List Str) (si : Nat) (tp : Str)
    (hrow : si < row.length)
    (hlen : ¬ byteLen (trimSpace (row.getD si [])) < 4)
    (hnum : atoiOk (trimSpace (row.getD si [])) = false)
    (hal : alarmMatch (trimSpace (row.getD si [])) = false)
    (hget : cacheGet cache (normalizeText (trimSpace (row.getD si []))).1 = some tp)
    (hpos : 0 < (normalizeText (trimSpace (row.getD si []))).2.length)
    (hcnt : countTok tp = (normalizeText (trimSpace (row.getD si []))).2.length) :
    cacheProcessRow oracle cache row si
      = (cache, some (substNums tp (normalizeText (trimSpace (row.getD si []))).2), []) := by
  unfold cacheProcessRow
  rw [if_neg (by omega)]
  unfold cacheStep
  rw [if_neg hlen, if_neg (by rw [hnum]; simp), if_neg (by rw [hal]; simp)]
  have hhit : cacheHit cache (trimSpace (row.getD si []))
      = some (substNums tp (normalizeText (trimSpace (row.getD si []))).2) := by
    unfold cacheHit
    rw [hget]
    dsimp only
    have hd : decide (0 < (normalizeText (trimSpace (row.getD si []))).2.length) = true :=
      decide_eq_true hpos
    rw [if_pos (by rw [hd, hcnt]; simp)]
  rw [hhit]

/-- Witness for C9 (amended): a row `"Alarm 7"` whose pattern is cached
with a one-token value is served from the cache, which stays unchanged. -/
theorem c9_cache_hit_no_overwrite_witness :
    cacheProcessRow oracleNone [((normalizeText ("Alarm 7".toList)).1, 'X' :: tokN)]
      ["Alarm 7".toList] 0
      = ([((normalizeText ("Alarm 7".toList)).1, 'X' :: tokN)],
         some (substNums ('X' :: tokN)
           (normalizeText (trimSpace (["Alarm 7".toList].getD 0 []))).2), []) :=
  c9_cache_hit_no_overwrite oracleNone
    [((normalizeText ("Alarm 7".toList)).1, 'X' :: tokN)] ["Alarm 7".toList] 0
    ('X' :: tokN) (by decide) (by decide) (by decide) (by decide) (by decide)
    (by decide) (by decide)
